import Mathlib

/-!
Verification of the incremental enrichment and merge engine of the
feedback-analysis pipeline (`feedback_analyze_pipeline.py`).

Dataframes are modelled as lists of rows; a row carries the columns the
pipeline reads or writes.  A dataframe together with its pandas index is a
`List (Nat × Row)`.  Reading a persisted output file is modelled by
`ReadResult`: the file may be absent, its read may raise, or it yields rows.
A pandas `NaN` cell in a text column is modelled by `Option.none`.
-/

namespace FeedbackPipeline

/-- One row of the working dataset (base columns plus the annotation
columns the pipeline may add).  `feedback_comment` is `none` when the cell
is `NaN`. -/
structure Row where
  request_time : String
  user_question : String
  bot_answer : String
  feedback_rating : String
  feedback_comment : Option String
  category : String
  sub_category : String
  feedback_comment_category : String
  scenario : String
deriving DecidableEq, Repr

/-- Outcome of reading a persisted output file: the file may not exist
(`absent`), reading it may raise (`failed`), or it yields rows (`ok`). -/
inductive ReadResult where
  | absent
  | failed
  | ok (rows : List Row)
deriving DecidableEq, Repr

/-- Model of `create_record_key`: the deduplication key, the three identity
fields joined with `|`. -/
def create_record_key (row : Row) : String :=
  row.request_time ++ "|" ++ row.user_question ++ "|" ++ row.bot_answer

/-- Model of `get_processed_records`: the keys of every row already present
in an output file; an absent or unreadable file yields no keys. -/
def get_processed_records (prior : ReadResult) : List String :=
  match prior with
  | .absent => []
  | .failed => []
  | .ok rows => rows.map create_record_key

/-- Model of `filter_unprocessed_records`: keep the rows of `df` whose key
is not among the previously processed keys; when no processed keys were
found the whole dataframe is returned. -/
def filter_unprocessed_records (df : List (Nat × Row)) (prior : ReadResult) :
    List (Nat × Row) :=
  let processed := get_processed_records prior
  if processed.isEmpty then df
  else df.filter (fun p => decide (create_record_key p.2 ∉ processed))

/-- Model of pandas `drop_duplicates(subset=['_temp_key'], keep='last')` on
the record key: a row is kept exactly when no later row has the same key,
and kept rows stay in their original order. -/
def drop_duplicates_keep_last (rows : List Row) : List Row :=
  match rows with
  | [] => []
  | r :: rest =>
      if rest.any (fun s => decide (create_record_key s = create_record_key r)) then
        drop_duplicates_keep_last rest
      else
        r :: drop_duplicates_keep_last rest

/-- Model of `merge_with_existing_results`: an absent prior file (or a
read/merge exception) returns the new batch; otherwise existing rows are
concatenated before new rows and duplicate keys are dropped keeping the
last occurrence. -/
def merge_with_existing_results (new_df : List Row) (prior : ReadResult) :
    List Row :=
  match prior with
  | .absent => new_df
  | .failed => new_df
  | .ok existing_df => drop_duplicates_keep_last (existing_df ++ new_df)

/-- Model of Python `str.lower()` over the characters of a string. -/
def py_lower (s : String) : String :=
  ⟨s.data.map Char.toLower⟩

/-- Model of Python `str.strip()`: drop whitespace from both ends. -/
def py_strip (s : String) : String :=
  ⟨((s.data.dropWhile Char.isWhitespace).reverse.dropWhile Char.isWhitespace).reverse⟩

/-- Normalization applied both to the reference questions and to each row's
`user_question`: `lower()` then `strip()`. -/
def normalize_question (s : String) : String :=
  py_strip (py_lower s)

/-- Model of `load_mapped_questions`: `none` models a missing or unreadable
reference file (empty set); otherwise every entry of the `question` column
is lower-cased and stripped. -/
def load_mapped_questions (file : Option (List String)) : List String :=
  match file with
  | none => []
  | some qs => qs.map normalize_question

/-- Model of `add_scenario_mapping` applied with an already-loaded mapped
question set.  An empty set tags every row `B`; otherwise a row is tagged
`A` exactly when its normalized question is a member of the set. -/
def add_scenario_mapping (mapped : List String) (df : List (Nat × Row)) :
    List (Nat × Row) :=
  if mapped.isEmpty then
    df.map (fun p => (p.1, { p.2 with scenario := "B" }))
  else
    df.map (fun p =>
      if normalize_question p.2.user_question ∈ mapped then
        (p.1, { p.2 with scenario := "A" })
      else
        (p.1, { p.2 with scenario := "B" }))

/-- Structured response of the external capability for category
classification; a `none` field models a JSON object lacking that key
(`result.get` then supplies the default). -/
structure CatResponse where
  category : Option String
  sub_category : Option String
deriving DecidableEq, Repr

/-- Model of `categorize_question_async` given the capability's outcome:
`none` models an exception anywhere in the call (network, JSON parse),
which is caught and mapped to `('other', 'General')`; on success each
missing field individually defaults. -/
def categorize_question (resp : Option CatResponse) : String × String :=
  match resp with
  | none => ("other", "General")
  | some j => (j.category.getD "other", j.sub_category.getD "General")

/-- One row's categorization task plus result write-back: the parsed pair
is written into the row only when both strings are truthy (non-empty),
otherwise the row's existing values are kept. -/
def categorize_row (oracle : Nat → Option CatResponse) (p : Nat × Row) :
    Nat × Row :=
  let cs := categorize_question (oracle p.1)
  if cs.1 ≠ "" ∧ cs.2 ≠ "" then
    (p.1, { p.2 with category := cs.1, sub_category := cs.2 })
  else p

/-- Model of `add_categories_async`: every row gets a categorization task
and its result is written back at the row's index.  The oracle maps a
row's dataframe index to the capability outcome for that row's call. -/
def add_categories_async (oracle : Nat → Option CatResponse)
    (df : List (Nat × Row)) : List (Nat × Row) :=
  df.map (categorize_row oracle)

/-- Truthiness of a `feedback_comment` cell as tested by
`pd.isna(c) or c.strip() == ''`: `none` models `NaN`. -/
def is_blank_comment (c : Option String) : Bool :=
  match c with
  | none => true
  | some s => decide (py_strip s = "")

/-- Guard of `process_single_comment`: only THUMBS_DOWN rows with a blank
comment are sent to comment generation. -/
def needs_comment (r : Row) : Bool :=
  decide (r.feedback_rating = "THUMBS_DOWN") && is_blank_comment r.feedback_comment

/-- Value returned by one `process_single_comment` task: either the row's
original cell (row skipped, capability not invoked) or the generated
comment (`none` models `generate_bot_comment_async` returning `None` after
an exception). -/
inductive CVal where
  | cell (c : Option String)
  | gen (g : Option String)
deriving DecidableEq, Repr

/-- Python truthiness of the task value under `if comment:`.  A `NaN` cell
(`cell none`) is a float and is truthy; `None` from a failed generation is
falsy; a string is truthy when non-empty. -/
def cval_truthy : CVal → Bool
  | .cell none => true
  | .cell (some s) => decide (s ≠ "")
  | .gen none => false
  | .gen (some s) => decide (s ≠ "")

/-- The cell value written back for a truthy task value. -/
def cval_write : CVal → Option String
  | .cell c => c
  | .gen g => g

/-- One `process_single_comment` task: a row meeting the guard gets the
generated comment (the capability is invoked, recorded by `true`); any
other row returns its original cell without invoking the capability. -/
def process_single_comment (oracle : Nat → Option String) (p : Nat × Row) :
    Nat × CVal × Bool :=
  if needs_comment p.2 then (p.1, CVal.gen (oracle p.1), true)
  else (p.1, CVal.cell p.2.feedback_comment, false)

/-- One iteration of the `add_comments_async` write-back loop: a truthy
task value is written at its task's dataframe index. -/
def comment_write_step (acc : List (Nat × Row)) (q : Nat × CVal × Bool) :
    List (Nat × Row) :=
  if cval_truthy q.2.1 then
    acc.map (fun p =>
      if p.1 = q.1 then (p.1, { p.2 with feedback_comment := cval_write q.2.1 })
      else p)
  else acc

/-- Model of `add_comments_async`.  When no row needs a comment the copy of
the dataframe is returned untouched.  Otherwise one task per row computes a
`CVal` and the update loop writes each truthy value back at the task's
index.  Returns the updated dataframe together with the indices whose rows
were sent to the capability. -/
def add_comments_async (oracle : Nat → Option String) (df : List (Nat × Row)) :
    List (Nat × Row) × List Nat :=
  if df.all (fun p => !needs_comment p.2) then (df, [])
  else
    let results := df.map (process_single_comment oracle)
    ((results.foldl comment_write_step df),
      (results.filter (fun q => q.2.2)).map (fun q => q.1))

/-- Model of `categorize_feedback_comment_async` given the capability's
outcome: a blank comment short-circuits to `''` without invoking the
capability; an exception (`none`) yields `''`; otherwise the
`feedback_comment_category` field defaults to `''` when absent. -/
def categorize_feedback_comment (comment : Option String)
    (resp : Option (Option String)) : String :=
  if is_blank_comment comment then ""
  else
    match resp with
    | none => ""
    | some g => g.getD ""

/-- One `process_single_comment_category` task: a non-THUMBS_DOWN row
returns `''` without invoking the capability; a THUMBS_DOWN row calls
`categorize_feedback_comment_async`, which itself short-circuits on a
blank comment (so the capability is only invoked on a non-blank one). -/
def process_single_comment_category (oracle : Nat → Option (Option String))
    (p : Nat × Row) : Nat × String × Bool :=
  if p.2.feedback_rating ≠ "THUMBS_DOWN" then (p.1, "", false)
  else if is_blank_comment p.2.feedback_comment then
    (p.1, categorize_feedback_comment p.2.feedback_comment (oracle p.1), false)
  else (p.1, categorize_feedback_comment p.2.feedback_comment (oracle p.1), true)

/-- One iteration of the `add_feedback_comment_categories_async` write-back
loop: only a truthy (non-empty) category string is written back. -/
def comment_category_write_step (acc : List (Nat × Row))
    (q : Nat × String × Bool) : List (Nat × Row) :=
  if q.2.1 ≠ "" then
    acc.map (fun p =>
      if p.1 = q.1 then (p.1, { p.2 with feedback_comment_category := q.2.1 })
      else p)
  else acc

/-- Model of `add_feedback_comment_categories_async`: one task per row,
then the write-back loop.  Returns the updated dataframe together with the
indices whose rows were sent to the capability. -/
def add_feedback_comment_categories_async (oracle : Nat → Option (Option String))
    (df : List (Nat × Row)) : List (Nat × Row) × List Nat :=
  let results := df.map (process_single_comment_category oracle)
  ((results.foldl comment_category_write_step df),
    (results.filter (fun q => q.2.2)).map (fun q => q.1))

/-- File state of one per-annotation output after a `process_*_only` run
(as in `process_comments_only`): when the unprocessed subset is empty the
run neither enriches nor saves, so the persisted state is unchanged;
otherwise the merged result is written out. -/
def run_file_state (enrich : Row → Row) (base : List (Nat × Row))
    (prior : ReadResult) : ReadResult :=
  let u := filter_unprocessed_records base prior
  if u.isEmpty then prior
  else .ok (merge_with_existing_results (u.map (fun p => enrich p.2)) prior)

/-- Dataframe returned by one `process_*_only` run: with an empty
unprocessed subset the existing output file is returned (or the base data
when no file exists); otherwise the merged result is returned. -/
def run_result (enrich : Row → Row) (base : List (Nat × Row))
    (prior : ReadResult) : List Row :=
  let u := filter_unprocessed_records base prior
  if u.isEmpty then
    match prior with
    | .ok rows => rows
    | _ => base.map Prod.snd
  else merge_with_existing_results (u.map (fun p => enrich p.2)) prior

/-- Phase of one dispatcher task with respect to the admission semaphore of
`add_categories_async` / `add_comments_async` /
`add_feedback_comment_categories_async`: created but not yet admitted,
holding the semaphore with its external call outstanding, or finished. -/
inductive TaskPhase where
  | pending
  | inflight
  | finished
deriving DecidableEq, Repr

/-- Number of tasks whose external-capability call is outstanding. -/
def inflight_count (s : List TaskPhase) : Nat :=
  s.countP (fun t => decide (t = TaskPhase.inflight))

/-- Interleaving semantics of the semaphore-guarded task bodies
(`async with semaphore: await ...`): a pending task may enter its call only
when fewer than `k` calls are outstanding (`asyncio.Semaphore(k)` blocks
otherwise), and an in-flight task may complete, releasing its slot. -/
inductive DispatchStep (k : Nat) : List TaskPhase → List TaskPhase → Prop where
  | acquire (s : List TaskPhase) (i : Nat) (hi : s.get? i = some TaskPhase.pending)
      (hcap : inflight_count s < k) :
      DispatchStep k s (s.set i TaskPhase.inflight)
  | release (s : List TaskPhase) (i : Nat) (hi : s.get? i = some TaskPhase.inflight) :
      DispatchStep k s (s.set i TaskPhase.finished)

/-- States reachable by the dispatcher: all `n` tasks of a batch start
pending (they are all scheduled together by `asyncio.gather`), then the
event loop interleaves semaphore steps. -/
inductive DispatchReachable (k : Nat) : List TaskPhase → Prop where
  | start (n : Nat) : DispatchReachable k (List.replicate n TaskPhase.pending)
  | step {s t : List TaskPhase} :
      DispatchReachable k s → DispatchStep k s t → DispatchReachable k t

/-! Lemmas about `drop_duplicates_keep_last`. -/

lemma ddl_subset {l : List Row} {r : Row}
    (h : r ∈ drop_duplicates_keep_last l) : r ∈ l := by
  induction l with
  | nil => simpa [drop_duplicates_keep_last] using h
  | cons a rest ih =>
      rw [drop_duplicates_keep_last] at h
      split at h
      · exact List.mem_cons_of_mem _ (ih h)
      · rcases List.mem_cons.mp h with h1 | h2
        · exact h1 ▸ List.mem_cons_self _ _
        · exact List.mem_cons_of_mem _ (ih h2)

lemma ddl_key_mem {X : String} : ∀ {l : List Row},
    X ∈ (drop_duplicates_keep_last l).map create_record_key ↔
      X ∈ l.map create_record_key := by
  intro l
  induction l with
  | nil => simp [drop_duplicates_keep_last]
  | cons a rest ih =>
      rw [drop_duplicates_keep_last]
      split
      · rename_i hany
        rw [List.any_eq_true] at hany
        obtain ⟨s, hs, hkey⟩ := hany
        rw [decide_eq_true_eq] at hkey
        have hka : create_record_key a ∈ rest.map create_record_key :=
          hkey ▸ List.mem_map_of_mem create_record_key hs
        simp only [List.map_cons, List.mem_cons]
        constructor
        · intro h; exact Or.inr (ih.mp h)
        · rintro (h | h)
          · exact ih.mpr (h ▸ hka)
          · exact ih.mpr h
      · simp only [List.map_cons, List.mem_cons, ih]

lemma ddl_keys_nodup : ∀ (l : List Row),
    ((drop_duplicates_keep_last l).map create_record_key).Nodup := by
  intro l
  induction l with
  | nil => simp [drop_duplicates_keep_last]
  | cons a rest ih =>
      rw [drop_duplicates_keep_last]
      split
      · exact ih
      · rename_i hany
        simp only [List.map_cons, List.nodup_cons]
        refine ⟨?_, ih⟩
        intro hmem
        have : create_record_key a ∈ rest.map create_record_key := ddl_key_mem.mp hmem
        obtain ⟨s, hs, hkey⟩ := List.mem_map.mp this
        exact hany (List.any_eq_true.mpr ⟨s, hs, decide_eq_true hkey⟩)

lemma ddl_eq_nil_iff {l : List Row} :
    drop_duplicates_keep_last l = [] ↔ l = [] := by
  induction l with
  | nil => simp [drop_duplicates_keep_last]
  | cons a rest ih =>
      rw [drop_duplicates_keep_last]
      split
      · rename_i hany
        rw [List.any_eq_true] at hany
        obtain ⟨s, hs, -⟩ := hany
        simp only [ih]
        constructor
        · intro h; exact absurd (h ▸ hs) (List.not_mem_nil s)
        · intro h; exact absurd h (List.cons_ne_nil a rest)
      · simp

lemma ddl_mem_suffix {X : String} {l2 : List Row}
    (hX : ∃ s ∈ l2, create_record_key s = X) :
    ∀ (l1 : List Row) {r : Row},
      r ∈ drop_duplicates_keep_last (l1 ++ l2) → create_record_key r = X → r ∈ l2 := by
  intro l1
  induction l1 with
  | nil => intro r h _; exact ddl_subset h
  | cons a l1 ih =>
      intro r h hkey
      rw [List.cons_append, drop_duplicates_keep_last] at h
      split at h
      · exact ih h hkey
      · rename_i hany
        rcases List.mem_cons.mp h with h1 | h2
        · exfalso
          obtain ⟨s, hs, hsk⟩ := hX
          apply hany
          refine List.any_eq_true.mpr ⟨s, List.mem_append_right _ hs, ?_⟩
          exact decide_eq_true (by rw [hsk, ← h1, hkey])
        · exact ih h2 hkey

lemma length_filter_key_le_one {X : String} : ∀ {l : List Row},
    ((l.map create_record_key).Nodup) →
      (l.filter (fun r => decide (create_record_key r = X))).length ≤ 1 := by
  intro l
  induction l with
  | nil => intro _; simp
  | cons a rest ih =>
      intro h
      simp only [List.map_cons, List.nodup_cons] at h
      obtain ⟨hna, hrest⟩ := h
      by_cases hk : create_record_key a = X
      · have hempty : rest.filter (fun r => decide (create_record_key r = X)) = [] := by
          rw [List.filter_eq_nil_iff]
          intro b hb hbk
          rw [decide_eq_true_eq] at hbk
          exact hna (List.mem_map.mpr ⟨b, hb, hbk.trans hk.symm⟩)
        simp [List.filter_cons, hk, hempty]
      · simpa [List.filter_cons, hk] using ih hrest

/-- C1: merging a new batch into an existing output deduplicates by record
key keeping the last occurrence, so the new batch's annotation wins: the
merged dataset has exactly one row for key `X` and that row carries the new
annotation; and with an absent prior file the merge returns the new batch
unchanged. -/
theorem merge_last_write_wins (ann : Row → String) (existing new_df : List Row)
    (X : String)
    (hold : ∃ r ∈ existing, create_record_key r = X ∧ ann r = "old")
    (hmem : ∃ r ∈ new_df, create_record_key r = X)
    (hnew : ∀ r ∈ new_df, create_record_key r = X → ann r = "new") :
    ((merge_with_existing_results new_df (.ok existing)).filter
        (fun r => decide (create_record_key r = X))).length = 1
    ∧ (∀ r ∈ merge_with_existing_results new_df (.ok existing),
        create_record_key r = X → ann r = "new")
    ∧ merge_with_existing_results new_df .absent = new_df := by
  clear hold
  refine ⟨?_, ?_, rfl⟩
  · apply Nat.le_antisymm
    · exact length_filter_key_le_one (ddl_keys_nodup _)
    · obtain ⟨r, hr, hrk⟩ := hmem
      have hX : X ∈ (existing ++ new_df).map create_record_key :=
        hrk ▸ List.mem_map_of_mem create_record_key (List.mem_append_right _ hr)
      have hX2 := ddl_key_mem.mpr hX
      obtain ⟨s, hs, hsk⟩ := List.mem_map.mp hX2
      have : s ∈ (merge_with_existing_results new_df (.ok existing)).filter
          (fun r => decide (create_record_key r = X)) :=
        List.mem_filter.mpr ⟨hs, decide_eq_true hsk⟩
      exact List.length_pos.mpr (List.ne_nil_of_mem this)
  · intro r hr hrk
    exact hnew r (ddl_mem_suffix hmem existing hr hrk) hrk

/-- C2: with a readable prior output, the unprocessed filter returns
exactly the rows of the current dataset whose key is not among the prior
output's keys, as an order- and index-preserving sublist; an absent or
unreadable prior output returns the whole current dataset. -/
theorem filter_unprocessed_spec (df : List (Nat × Row)) (rows : List Row) :
    filter_unprocessed_records df (.ok rows)
      = df.filter (fun p =>
          decide (create_record_key p.2 ∉ rows.map create_record_key))
    ∧ filter_unprocessed_records df .absent = df
    ∧ filter_unprocessed_records df .failed = df := by
  refine ⟨?_, rfl, rfl⟩
  rw [filter_unprocessed_records]
  simp only [get_processed_records]
  split
  · rename_i hempty
    rw [List.isEmpty_iff] at hempty
    rw [hempty]
    exact (List.filter_eq_self.mpr (fun a _ => by simp)).symm
  · rfl

/-- C10: when the prior output file exists but reading or merging it
raises, the merge returns only the new batch, so any previously persisted
row whose key is absent from the new batch is missing from the result. -/
theorem merge_unreadable_prior_drops_old (new_df existing : List Row) (r : Row)
    (hr : r ∈ existing)
    (hkey : create_record_key r ∉ new_df.map create_record_key) :
    merge_with_existing_results new_df .failed = new_df
    ∧ r ∉ merge_with_existing_results new_df .failed := by
  refine ⟨rfl, fun hmem => hkey ?_⟩
  exact List.mem_map_of_mem create_record_key hmem

/-! Record-key injectivity: the key is the `|`-join of the three identity
fields, so it separates records only when the fields are free of the
delimiter. -/

lemma create_record_key_data (r : Row) :
    (create_record_key r).data
      = r.request_time.data
        ++ '|' :: (r.user_question.data ++ '|' :: r.bot_answer.data) := by
  have hp : ("|" : String).data = ['|'] := rfl
  simp [create_record_key, String.data_append, hp]

lemma append_pipe_cancel : ∀ (a : List Char) {b : List Char} (c : List Char)
    {d : List Char}, '|' ∉ a → '|' ∉ c →
    a ++ '|' :: b = c ++ '|' :: d → a = c ∧ b = d := by
  intro a
  induction a with
  | nil =>
      intro b c d _ hc h
      cases c with
      | nil => exact ⟨rfl, by simpa using h⟩
      | cons x xs =>
          rw [List.nil_append, List.cons_append] at h
          injection h with h1 h2
          exact absurd (h1 ▸ List.mem_cons_self x xs) hc
  | cons y ys ih =>
      intro b c d ha hc h
      cases c with
      | nil =>
          rw [List.cons_append, List.nil_append] at h
          injection h with h1 h2
          exact absurd (h1 ▸ List.mem_cons_self y ys) ha
      | cons x xs =>
          rw [List.cons_append, List.cons_append] at h
          injection h with h1 h2
          have ha' : '|' ∉ ys := fun hm => ha (List.mem_cons_of_mem _ hm)
          have hc' : '|' ∉ xs := fun hm => hc (List.mem_cons_of_mem _ hm)
          obtain ⟨hac, hbd⟩ := ih xs ha' hc' h2
          exact ⟨by rw [h1, hac], hbd⟩

/-- C4 counterexample: two records that differ in every identity field but
whose key strings coincide, because the delimiter `|` occurs inside the
fields themselves. -/
def row_pipe_left : Row :=
  { request_time := "a|b", user_question := "c", bot_answer := "d",
    feedback_rating := "THUMBS_UP", feedback_comment := none,
    category := "", sub_category := "", feedback_comment_category := "",
    scenario := "" }

/-- Companion record for the C4 counterexample. -/
def row_pipe_right : Row :=
  { row_pipe_left with request_time := "a", user_question := "b|c" }

/-- C4 counterexample: `row_pipe_left` and `row_pipe_right` differ in both
`request_time` and `user_question`, yet `create_record_key` maps them to
the same string, refuting the claimed injectivity on arbitrary field
content. -/
theorem create_record_key_collision :
    row_pipe_left.request_time ≠ row_pipe_right.request_time
    ∧ row_pipe_left.user_question ≠ row_pipe_right.user_question
    ∧ create_record_key row_pipe_left = create_record_key row_pipe_right := by
  refine ⟨by decide, by decide, by decide⟩

/-- C4 (amended): on records none of whose three identity fields contains
the delimiter character `|`, two records have equal keys exactly when all
three identity fields agree; in particular the key is a deterministic
total function of those three fields alone. -/
theorem create_record_key_spec (r s : Row)
    (hr1 : '|' ∉ r.request_time.data) (hr2 : '|' ∉ r.user_question.data)
    (hr3 : '|' ∉ r.bot_answer.data)
    (hs1 : '|' ∉ s.request_time.data) (hs2 : '|' ∉ s.user_question.data)
    (hs3 : '|' ∉ s.bot_answer.data) :
    create_record_key r = create_record_key s ↔
      r.request_time = s.request_time ∧ r.user_question = s.user_question
        ∧ r.bot_answer = s.bot_answer := by
  clear hr3 hs3
  constructor
  · intro h
    have hd : (create_record_key r).data = (create_record_key s).data := by rw [h]
    rw [create_record_key_data, create_record_key_data] at hd
    obtain ⟨h1, h23⟩ := append_pipe_cancel _ _ hr1 hs1 hd
    obtain ⟨h2, h3⟩ := append_pipe_cancel _ _ hr2 hs2 h23
    exact ⟨String.ext h1, String.ext h2, String.ext h3⟩
  · rintro ⟨h1, h2, h3⟩
    rw [create_record_key, create_record_key, h1, h2, h3]

/-! Scenario tagging. -/

/-- A plain base row used by concrete scenario examples. -/
def base_row : Row :=
  { request_time := "2024-01-01 10:00:00", user_question := "",
    bot_answer := "an answer", feedback_rating := "THUMBS_UP",
    feedback_comment := none, category := "", sub_category := "",
    feedback_comment_category := "", scenario := "" }

/-- Row whose question carries a trailing question mark. -/
def fps_q_row : Row := { base_row with user_question := "What is FPS?" }

/-- Row whose question differs from the reference entry only in case and
surrounding whitespace. -/
def fps_sp_row : Row := { base_row with user_question := " What is FPS " }

/-- Row with an open-ended question. -/
def account_row : Row :=
  { base_row with user_question := "How do I open an account?" }

/-- C7 counterexample: with the mapped set {"what is fps"}, the record with
`user_question = "What is FPS?"` is tagged `B`, not `A` as claimed — the
normalization lower-cases and strips whitespace but keeps the question
mark, so the membership test fails. -/
theorem scenario_fps_question_mark_is_B :
    (add_scenario_mapping (load_mapped_questions (some ["what is fps"]))
        [(0, fps_q_row)]).map (fun p => p.2.scenario) = ["B"] := by
  decide

/-- C7 (amended): with the mapped set {"what is fps"}, a record whose
question equals a reference entry up to case and surrounding whitespace
(" What is FPS ") is tagged `A`; "What is FPS?" (extra question mark) and
"How do I open an account?" are tagged `B`. -/
theorem scenario_tagger_amended :
    (add_scenario_mapping (load_mapped_questions (some ["what is fps"]))
        [(0, fps_sp_row), (1, fps_q_row), (2, account_row)]).map
        (fun p => p.2.scenario) = ["A", "B", "B"] := by
  decide

/-! Category classification and the closed taxonomy. -/

/-- Top-level categories of the sitemap taxonomy embedded in the
categorization prompt. -/
def top_level_categories : List String :=
  ["Accounts", "Ways to bank", "HSBC credit cards", "Loans", "Investments",
   "Insurance", "Help and support", "International services", "Mortgages",
   "Payments and transfers", "Community Banking", "MPF"]

/-- C8 counterexample: a capability response naming a category outside the
taxonomy is accepted verbatim — the result is neither a taxonomy member
nor the `('other', 'General')` fallback the claim requires. -/
theorem categorize_accepts_nontaxonomy :
    categorize_question
        (some { category := some "Cryptocurrency trading",
                sub_category := some "Memecoins" })
      = ("Cryptocurrency trading", "Memecoins")
    ∧ "Cryptocurrency trading" ∉ top_level_categories
    ∧ "Cryptocurrency trading" ≠ "other" := by
  refine ⟨rfl, by decide, by decide⟩

/-- C8 (amended): category classification falls back to
`('other', 'General')` only when the capability call fails or the response
omits the respective field; whatever strings the response does carry are
returned as-is, with no validation against the taxonomy. -/
theorem categorize_question_amended :
    categorize_question none = ("other", "General")
    ∧ categorize_question (some { category := none, sub_category := none })
        = ("other", "General")
    ∧ ∀ j : CatResponse, categorize_question (some j)
        = (j.category.getD "other", j.sub_category.getD "General") :=
  ⟨rfl, rfl, fun _ => rfl⟩

/-! Concrete rows used by witnesses. -/

/-- Prior-output row carrying the annotation value "old". -/
def row_old : Row :=
  { request_time := "t1", user_question := "q1", bot_answer := "a1",
    feedback_rating := "THUMBS_DOWN", feedback_comment := none,
    category := "old", sub_category := "", feedback_comment_category := "",
    scenario := "" }

/-- New-batch row with the same identity as `row_old` but annotation
"new". -/
def row_new : Row := { row_old with category := "new" }

/-- Prior-output row whose identity does not occur in the new batch. -/
def row_prior_only : Row := { row_old with request_time := "t0" }

/-- C1 witness: the last-write-wins theorem applied at a one-row prior
output and a one-row new batch sharing the identity "t1|q1|a1". -/
theorem merge_last_write_wins_witness :
    ((merge_with_existing_results [row_new] (.ok [row_old])).filter
        (fun r => decide (create_record_key r = "t1|q1|a1"))).length = 1
    ∧ (∀ r ∈ merge_with_existing_results [row_new] (.ok [row_old]),
        create_record_key r = "t1|q1|a1" → Row.category r = "new")
    ∧ merge_with_existing_results [row_new] .absent = [row_new] :=
  merge_last_write_wins Row.category [row_old] [row_new] "t1|q1|a1"
    (by decide) (by decide) (by decide)

/-- Row with pipe-free identity fields for the C4 witness. -/
def plain_row_a : Row := { base_row with user_question := "what is fps" }

/-- Second pipe-free row for the C4 witness. -/
def plain_row_b : Row := { base_row with user_question := "another question" }

/-- C4 witness: the amended key specification applied at two concrete
pipe-free records. -/
theorem create_record_key_spec_witness :
    create_record_key plain_row_a = create_record_key plain_row_b ↔
      plain_row_a.request_time = plain_row_b.request_time
        ∧ plain_row_a.user_question = plain_row_b.user_question
        ∧ plain_row_a.bot_answer = plain_row_b.bot_answer :=
  create_record_key_spec plain_row_a plain_row_b
    (by decide) (by decide) (by decide) (by decide) (by decide) (by decide)

/-- C10 witness: with an unreadable prior output, merging a new batch not
containing `row_prior_only`'s identity returns just the new batch, and the
previously persisted row is gone. -/
theorem merge_unreadable_prior_drops_old_witness :
    merge_with_existing_results [row_new] .failed = [row_new]
    ∧ row_prior_only ∉ merge_with_existing_results [row_new] .failed :=
  merge_unreadable_prior_drops_old [row_new] [row_prior_only] row_prior_only
    (by decide) (by decide)


/-! Partial-failure isolation of the category dispatcher. -/

lemma categorize_row_fst (oracle : Nat → Option CatResponse) (p : Nat × Row) :
    (categorize_row oracle p).1 = p.1 := by
  rw [categorize_row]
  split <;> rfl

lemma categorize_row_of_fail {oracle : Nat → Option CatResponse}
    {p : Nat × Row} (h : oracle p.1 = none) :
    categorize_row oracle p
      = (p.1, { p.2 with category := "other", sub_category := "General" }) := by
  rw [categorize_row]
  simp only [h, categorize_question]
  rw [if_pos (show ¬("other" : String) = "" ∧ ¬("General" : String) = ""
    by decide)]

lemma categorize_row_of_ok {oracle : Nat → Option CatResponse} {p : Nat × Row}
    (hc : (categorize_question (oracle p.1)).1 ≠ "")
    (hs : (categorize_question (oracle p.1)).2 ≠ "") :
    categorize_row oracle p
      = (p.1, { p.2 with
                  category := (categorize_question (oracle p.1)).1,
                  sub_category := (categorize_question (oracle p.1)).2 }) := by
  rw [categorize_row]
  exact if_pos ⟨hc, hs⟩

lemma add_categories_fst (oracle : Nat → Option CatResponse)
    (df : List (Nat × Row)) :
    (add_categories_async oracle df).map Prod.fst = df.map Prod.fst := by
  rw [add_categories_async, List.map_map]
  exact List.map_congr_left (fun p _ => categorize_row_fst oracle p)

lemma countP_default_pair (oracle : Nat → Option CatResponse) :
    ∀ (df : List (Nat × Row)) (j : Nat), oracle j = none →
      (∀ i ∈ df.map Prod.fst, i ≠ j →
          (categorize_question (oracle i)).1 ≠ ""
          ∧ (categorize_question (oracle i)).2 ≠ ""
          ∧ categorize_question (oracle i) ≠ ("other", "General")) →
      (add_categories_async oracle df).countP
          (fun p => decide (p.2.category = "other" ∧ p.2.sub_category = "General"))
        = (df.map Prod.fst).count j := by
  intro df
  induction df with
  | nil => intro j _ _; rfl
  | cons a rest ih =>
      intro j hfail hok
      rw [add_categories_async, List.map_cons, List.countP_cons, List.map_cons,
        List.count_cons, ← add_categories_async]
      have hok' : ∀ i ∈ rest.map Prod.fst, i ≠ j →
          (categorize_question (oracle i)).1 ≠ ""
          ∧ (categorize_question (oracle i)).2 ≠ ""
          ∧ categorize_question (oracle i) ≠ ("other", "General") :=
        fun i hi hij => hok i (List.mem_cons_of_mem _ hi) hij
      rw [ih j hfail hok']
      congr 1
      by_cases haj : a.1 = j
      · rw [categorize_row_of_fail (haj ▸ hfail)]
        simp [haj]
      · obtain ⟨hc, hs, hpair⟩ :=
          hok a.1 (List.mem_cons_self _ _) haj
        rw [categorize_row_of_ok hc hs]
        have hne : ¬((categorize_question (oracle a.1)).1 = "other"
            ∧ (categorize_question (oracle a.1)).2 = "General") := by
          rintro ⟨h1, h2⟩
          exact hpair (Prod.ext h1 h2)
        simp only [decide_eq_false hne]
        simp [haj]

/-- C5: when the capability call of exactly one record (dataframe index
`j`) fails and every other record's call parses to truthy, non-default
category strings, the category dispatcher still returns a row for every
record with its original index: the failing row carries the default pair
`('other', 'General')`, every other row carries exactly its capability's
pair, and exactly one row of the output carries the default pair. -/
theorem single_failure_isolation (oracle : Nat → Option CatResponse)
    (df : List (Nat × Row)) (j : Nat)
    (hcount : (df.map Prod.fst).count j = 1)
    (hfail : oracle j = none)
    (hok : ∀ i ∈ df.map Prod.fst, i ≠ j →
        (categorize_question (oracle i)).1 ≠ ""
        ∧ (categorize_question (oracle i)).2 ≠ ""
        ∧ categorize_question (oracle i) ≠ ("other", "General")) :
    (add_categories_async oracle df).length = df.length
    ∧ (add_categories_async oracle df).map Prod.fst = df.map Prod.fst
    ∧ (∀ p ∈ add_categories_async oracle df, p.1 = j →
        p.2.category = "other" ∧ p.2.sub_category = "General")
    ∧ (∀ p ∈ add_categories_async oracle df, p.1 ≠ j →
        (p.2.category, p.2.sub_category) = categorize_question (oracle p.1))
    ∧ (add_categories_async oracle df).countP
        (fun p => decide (p.2.category = "other" ∧ p.2.sub_category = "General"))
      = 1 := by
  refine ⟨?_, add_categories_fst oracle df, ?_, ?_, ?_⟩
  · rw [add_categories_async, List.length_map]
  · intro p hp hpj
    rw [add_categories_async] at hp
    obtain ⟨q, hq, hgq⟩ := List.mem_map.mp hp
    have hq1 : q.1 = j := by rw [← hpj, ← hgq, categorize_row_fst]
    rw [← hgq, categorize_row_of_fail (hq1 ▸ hfail)]
    exact ⟨rfl, rfl⟩
  · intro p hp hpj
    rw [add_categories_async] at hp
    obtain ⟨q, hq, hgq⟩ := List.mem_map.mp hp
    have hq1 : q.1 = p.1 := by rw [← hgq, categorize_row_fst]
    obtain ⟨hc, hs, -⟩ := hok q.1 (List.mem_map_of_mem Prod.fst hq)
      (by rw [hq1]; exact hpj)
    rw [← hgq, categorize_row_of_ok hc hs, hq1]
  · rw [countP_default_pair oracle df j hfail hok, hcount]

/-- Three-row batch for the C5 witness. -/
def cat_wit_df : List (Nat × Row) := [(0, base_row), (1, base_row), (2, base_row)]

/-- Oracle for the C5 witness: the call for index 1 fails, the others
return a valid taxonomy pair. -/
def cat_wit_oracle : Nat → Option CatResponse := fun i =>
  if i = 1 then none
  else some { category := some "Accounts", sub_category := some "Savings accounts" }

/-- C5 witness: the isolation theorem applied at a concrete three-row batch
whose middle call fails. -/
theorem single_failure_isolation_witness :
    (add_categories_async cat_wit_oracle cat_wit_df).length = cat_wit_df.length
    ∧ (add_categories_async cat_wit_oracle cat_wit_df).map Prod.fst
        = cat_wit_df.map Prod.fst
    ∧ (∀ p ∈ add_categories_async cat_wit_oracle cat_wit_df, p.1 = 1 →
        p.2.category = "other" ∧ p.2.sub_category = "General")
    ∧ (∀ p ∈ add_categories_async cat_wit_oracle cat_wit_df, p.1 ≠ 1 →
        (p.2.category, p.2.sub_category) = categorize_question (cat_wit_oracle p.1))
    ∧ (add_categories_async cat_wit_oracle cat_wit_df).countP
        (fun p => decide (p.2.category = "other" ∧ p.2.sub_category = "General"))
      = 1 :=
  single_failure_isolation cat_wit_oracle cat_wit_df 1
    (by decide) (by decide) (by decide)

/-! Predicate gating of THUMBS_UP rows. -/

lemma nodup_index_unique {df : List (Nat × Row)} {i : Nat} {r : Row}
    (hnodup : (df.map Prod.fst).Nodup) (hmem : (i, r) ∈ df) :
    ∀ p ∈ df, p.1 = i → p = (i, r) := by
  induction df with
  | nil => intro p hp; cases hp
  | cons a rest ih =>
      simp only [List.map_cons, List.nodup_cons] at hnodup
      obtain ⟨hna, hrest⟩ := hnodup
      intro p hp hpi
      rcases List.mem_cons.mp hmem with hm1 | hm2
      · rcases List.mem_cons.mp hp with hp1 | hp2
        · rw [hp1, ← hm1]
        · exfalso
          apply hna
          have hfst : p.1 ∈ rest.map Prod.fst := List.mem_map_of_mem Prod.fst hp2
          rw [hpi] at hfst
          rw [← hm1]
          exact hfst
      · rcases List.mem_cons.mp hp with hp1 | hp2
        · exfalso
          apply hna
          have hfst : (i, r).1 ∈ rest.map Prod.fst := List.mem_map_of_mem Prod.fst hm2
          rw [hp1] at hpi
          rw [hpi]
          exact hfst
        · exact ih hrest hm2 p hp2 hpi

lemma process_single_comment_fst (oracle : Nat → Option String) (p : Nat × Row) :
    (process_single_comment oracle p).1 = p.1 := by
  rw [process_single_comment]
  split <;> rfl

lemma process_single_comment_of_up {oracle : Nat → Option String} {p : Nat × Row}
    (h : p.2.feedback_rating = "THUMBS_UP") :
    process_single_comment oracle p = (p.1, CVal.cell p.2.feedback_comment, false) := by
  rw [process_single_comment, if_neg]
  simp [needs_comment, h]

lemma process_single_comment_category_fst (oracle : Nat → Option (Option String))
    (p : Nat × Row) : (process_single_comment_category oracle p).1 = p.1 := by
  rw [process_single_comment_category]
  split
  · rfl
  · split <;> rfl

lemma process_single_comment_category_of_up {oracle : Nat → Option (Option String)}
    {p : Nat × Row} (h : p.2.feedback_rating = "THUMBS_UP") :
    process_single_comment_category oracle p = (p.1, "", false) := by
  rw [process_single_comment_category, if_pos]
  rw [h]
  decide

lemma comment_write_fold_keeps {i : Nat} {v : Option String} :
    ∀ (results : List (Nat × CVal × Bool)) (acc : List (Nat × Row)),
      (∀ q ∈ results, q.1 = i → cval_write q.2.1 = v) →
      (∀ p ∈ acc, p.1 = i → p.2.feedback_comment = v) →
      ∀ p ∈ results.foldl comment_write_step acc, p.1 = i →
        p.2.feedback_comment = v := by
  intro results
  induction results with
  | nil => intro acc _ hacc; exact hacc
  | cons q rest ih =>
      intro acc hres hacc
      rw [List.foldl_cons]
      apply ih
      · exact fun q' hq' => hres q' (List.mem_cons_of_mem _ hq')
      · intro p hp hpi
        rw [comment_write_step] at hp
        split at hp
        · obtain ⟨p0, hp0, hpe⟩ := List.mem_map.mp hp
          by_cases hpq : p0.1 = q.1
          · rw [if_pos hpq] at hpe
            have hq1 : q.1 = i := by
              rw [← hpq]
              rw [← hpe] at hpi
              exact hpi
            rw [← hpe]
            exact hres q (List.mem_cons_self _ _) hq1
          · rw [if_neg hpq] at hpe
            rw [← hpe]
            rw [← hpe] at hpi
            exact hacc p0 hp0 hpi
        · exact hacc p hp hpi

lemma comment_category_write_fold_keeps {i : Nat} {v : String} :
    ∀ (results : List (Nat × String × Bool)) (acc : List (Nat × Row)),
      (∀ q ∈ results, q.1 = i → q.2.1 = "") →
      (∀ p ∈ acc, p.1 = i → p.2.feedback_comment_category = v) →
      ∀ p ∈ results.foldl comment_category_write_step acc, p.1 = i →
        p.2.feedback_comment_category = v := by
  intro results
  induction results with
  | nil => intro acc _ hacc; exact hacc
  | cons q rest ih =>
      intro acc hres hacc
      rw [List.foldl_cons]
      apply ih
      · exact fun q' hq' => hres q' (List.mem_cons_of_mem _ hq')
      · intro p hp hpi
        rw [comment_category_write_step] at hp
        split at hp
        · rename_i hne
          obtain ⟨p0, hp0, hpe⟩ := List.mem_map.mp hp
          by_cases hpq : p0.1 = q.1
          · exfalso
            have hq1 : q.1 = i := by
              rw [if_pos hpq] at hpe
              rw [← hpq]
              rw [← hpe] at hpi
              exact hpi
            exact hne (hres q (List.mem_cons_self _ _) hq1)
          · rw [if_neg hpq] at hpe
            rw [← hpe]
            rw [← hpe] at hpi
            exact hacc p0 hp0 hpi
        · exact hacc p hp hpi

/-- C6: a THUMBS_UP record is never sent to the comment-generation
capability nor to the comment-failure-classification capability; its
`feedback_comment` keeps its original value and its (initially blank)
`feedback_comment_category` stays blank. -/
theorem thumbs_up_gating (oracle : Nat → Option String)
    (coracle : Nat → Option (Option String)) (df : List (Nat × Row))
    (i : Nat) (r : Row) (hmem : (i, r) ∈ df)
    (hup : r.feedback_rating = "THUMBS_UP")
    (hblank : r.feedback_comment_category = "")
    (hnodup : (df.map Prod.fst).Nodup) :
    i ∉ (add_comments_async oracle df).2
    ∧ (∀ p ∈ (add_comments_async oracle df).1, p.1 = i →
        p.2.feedback_comment = r.feedback_comment)
    ∧ i ∉ (add_feedback_comment_categories_async coracle df).2
    ∧ (∀ p ∈ (add_feedback_comment_categories_async coracle df).1, p.1 = i →
        p.2.feedback_comment_category = "") := by
  have huniq := nodup_index_unique hnodup hmem
  have hcres : ∀ q ∈ df.map (process_single_comment oracle), q.1 = i →
      q = (i, CVal.cell r.feedback_comment, false) := by
    intro q hq hqi
    obtain ⟨p0, hp0, hpe⟩ := List.mem_map.mp hq
    have hpi : p0.1 = i := by
      rw [← process_single_comment_fst oracle p0, hpe]
      exact hqi
    have := huniq p0 hp0 hpi
    rw [← hpe, this, process_single_comment_of_up hup]
  have hkres : ∀ q ∈ df.map (process_single_comment_category coracle), q.1 = i →
      q = (i, "", false) := by
    intro q hq hqi
    obtain ⟨p0, hp0, hpe⟩ := List.mem_map.mp hq
    have hpi : p0.1 = i := by
      rw [← process_single_comment_category_fst coracle p0, hpe]
      exact hqi
    have := huniq p0 hp0 hpi
    rw [← hpe, this, process_single_comment_category_of_up hup]
  refine ⟨?_, ?_, ?_, ?_⟩
  · rw [add_comments_async]
    split
    · simp
    · intro hlog
      simp only at hlog
      obtain ⟨q, hqf, hq1⟩ := List.mem_map.mp hlog
      have hqmem := (List.mem_filter.mp hqf).1
      have hqcall := (List.mem_filter.mp hqf).2
      have := hcres q hqmem hq1
      rw [this] at hqcall
      exact absurd hqcall Bool.false_ne_true
  · intro p hp hpi
    rw [add_comments_async] at hp
    split at hp
    · simp only at hp
      rw [huniq p hp hpi]
    · simp only at hp
      refine comment_write_fold_keeps (df.map (process_single_comment oracle)) df
        ?_ ?_ p hp hpi
      · intro q hq hqi
        rw [hcres q hq hqi]
        rfl
      · intro p' hp' hpi'
        rw [huniq p' hp' hpi']
  · intro hlog
    rw [add_feedback_comment_categories_async] at hlog
    simp only at hlog
    obtain ⟨q, hqf, hq1⟩ := List.mem_map.mp hlog
    have hqmem := (List.mem_filter.mp hqf).1
    have hqcall := (List.mem_filter.mp hqf).2
    have := hkres q hqmem hq1
    rw [this] at hqcall
    exact absurd hqcall Bool.false_ne_true
  · intro p hp hpi
    rw [add_feedback_comment_categories_async] at hp
    simp only at hp
    refine comment_category_write_fold_keeps
      (df.map (process_single_comment_category coracle)) df ?_ ?_ p hp hpi
    · intro q hq hqi
      rw [hkres q hq hqi]
    · intro p' hp' hpi'
      rw [huniq p' hp' hpi', hblank]

/-- THUMBS_UP row used by the C6 witness; it carries an original comment. -/
def up_row : Row :=
  { base_row with
      user_question := "what are the fees",
      feedback_comment := some "great answer" }

/-- THUMBS_DOWN companion row used by the C6 witness. -/
def down_row : Row :=
  { base_row with
      user_question := "how to invest",
      feedback_rating := "THUMBS_DOWN" }

/-- C6 witness: the gating theorem applied at a concrete two-row dataframe
whose first row is THUMBS_UP. -/
theorem thumbs_up_gating_witness :
    0 ∉ (add_comments_async (fun _ => some "generated")
        [(0, up_row), (1, down_row)]).2
    ∧ (∀ p ∈ (add_comments_async (fun _ => some "generated")
        [(0, up_row), (1, down_row)]).1, p.1 = 0 →
        p.2.feedback_comment = up_row.feedback_comment)
    ∧ 0 ∉ (add_feedback_comment_categories_async (fun _ => some (some "Error Messages"))
        [(0, up_row), (1, down_row)]).2
    ∧ (∀ p ∈ (add_feedback_comment_categories_async (fun _ => some (some "Error Messages"))
        [(0, up_row), (1, down_row)]).1, p.1 = 0 →
        p.2.feedback_comment_category = "") :=
  thumbs_up_gating (fun _ => some "generated") (fun _ => some (some "Error Messages"))
    [(0, up_row), (1, down_row)] 0 up_row
    (by decide) (by decide) (by decide) (by decide)

/-! Idempotence of one enrichment-plus-merge pipeline step. -/

lemma base_key_in_merged (enrich : Row → Row)
    (hkey : ∀ r, create_record_key (enrich r) = create_record_key r)
    (base : List (Nat × Row)) (prior : ReadResult) (p : Nat × Row)
    (hp : p ∈ base) :
    create_record_key p.2 ∈
      (merge_with_existing_results
        ((filter_unprocessed_records base prior).map (fun q => enrich q.2))
        prior).map create_record_key := by
  by_cases hmem : create_record_key p.2 ∈ get_processed_records prior
  · cases prior with
    | absent => simp [get_processed_records] at hmem
    | failed => simp [get_processed_records] at hmem
    | ok P =>
        rw [merge_with_existing_results]
        apply ddl_key_mem.mpr
        rw [List.map_append]
        exact List.mem_append_left _ hmem
  · have hpu : p ∈ filter_unprocessed_records base prior := by
      simp only [filter_unprocessed_records]
      split
      · exact hp
      · exact List.mem_filter.mpr ⟨hp, decide_eq_true hmem⟩
    have hE : create_record_key p.2 ∈
        ((filter_unprocessed_records base prior).map
          (fun q => enrich q.2)).map create_record_key :=
      List.mem_map.mpr ⟨enrich p.2,
        List.mem_map_of_mem (fun q => enrich q.2) hpu, hkey p.2⟩
    cases prior with
    | absent => exact hE
    | failed => exact hE
    | ok P =>
        rw [merge_with_existing_results]
        apply ddl_key_mem.mpr
        rw [List.map_append]
        exact List.mem_append_right _ hE

lemma run_file_state_stay (enrich : Row → Row) {base : List (Nat × Row)}
    {st : ReadResult}
    (hu : (filter_unprocessed_records base st).isEmpty = true) :
    run_file_state enrich base st = st := by
  simp only [run_file_state]
  rw [if_pos hu]

lemma run_file_state_go (enrich : Row → Row) {base : List (Nat × Row)}
    {st : ReadResult}
    (hu : ¬ (filter_unprocessed_records base st).isEmpty = true) :
    run_file_state enrich base st
      = .ok (merge_with_existing_results
          ((filter_unprocessed_records base st).map (fun q => enrich q.2)) st) := by
  simp only [run_file_state]
  rw [if_neg hu]

lemma run_result_stay_ok (enrich : Row → Row) {base : List (Nat × Row)}
    {rows : List Row}
    (hu : (filter_unprocessed_records base (.ok rows)).isEmpty = true) :
    run_result enrich base (.ok rows) = rows := by
  simp only [run_result]
  rw [if_pos hu]

lemma run_result_go (enrich : Row → Row) {base : List (Nat × Row)}
    {st : ReadResult}
    (hu : ¬ (filter_unprocessed_records base st).isEmpty = true) :
    run_result enrich base st
      = merge_with_existing_results
          ((filter_unprocessed_records base st).map (fun q => enrich q.2)) st := by
  simp only [run_result]
  rw [if_neg hu]

lemma second_run_filter_nil (enrich : Row → Row)
    (hkey : ∀ r, create_record_key (enrich r) = create_record_key r)
    (base : List (Nat × Row)) (prior : ReadResult) :
    filter_unprocessed_records base (run_file_state enrich base prior) = [] := by
  by_cases hu : (filter_unprocessed_records base prior).isEmpty = true
  · rw [run_file_state_stay enrich hu]
    exact List.isEmpty_iff.mp hu
  · rw [run_file_state_go enrich hu]
    have hMne : merge_with_existing_results
        ((filter_unprocessed_records base prior).map (fun q => enrich q.2))
        prior ≠ [] := by
      have hune : filter_unprocessed_records base prior ≠ [] := by
        intro h
        exact hu (by rw [h]; rfl)
      have hEne : (filter_unprocessed_records base prior).map
          (fun q => enrich q.2) ≠ [] := by
        intro h
        exact hune (List.map_eq_nil.mp h)
      cases prior with
      | absent => exact hEne
      | failed => exact hEne
      | ok P =>
          rw [merge_with_existing_results]
          intro h
          have := ddl_eq_nil_iff.mp h
          exact hEne (List.append_eq_nil.mp this).2
    rw [filter_unprocessed_records]
    simp only [get_processed_records]
    rw [if_neg (by
      intro h
      exact hMne (List.map_eq_nil.mp (List.isEmpty_iff.mp h)))]
    rw [List.filter_eq_nil_iff]
    intro p hp
    rw [decide_eq_true_eq]
    intro hnot
    exact hnot (base_key_in_merged enrich hkey base prior p hp)

/-- C3: one `process_*_only` step is idempotent — after a first run over a
base dataset (with any prior output state), the second run's unprocessed
subset is empty, the dataframe the second run returns equals the first
run's, and the persisted output is unchanged by the second run.  The
hypothesis states that enrichment does not touch the three identity
fields, which holds of every annotation step. -/
theorem pipeline_idempotent (enrich : Row → Row) (base : List (Nat × Row))
    (prior : ReadResult)
    (hkey : ∀ r, create_record_key (enrich r) = create_record_key r) :
    filter_unprocessed_records base (run_file_state enrich base prior) = []
    ∧ run_result enrich base (run_file_state enrich base prior)
        = run_result enrich base prior
    ∧ run_file_state enrich base (run_file_state enrich base prior)
        = run_file_state enrich base prior := by
  have h2 := second_run_filter_nil enrich hkey base prior
  have h2e : (filter_unprocessed_records base
      (run_file_state enrich base prior)).isEmpty = true := by
    rw [h2]; rfl
  refine ⟨h2, ?_, run_file_state_stay enrich h2e⟩
  by_cases hu : (filter_unprocessed_records base prior).isEmpty = true
  · rw [run_file_state_stay enrich hu]
  · have hgo := run_file_state_go enrich hu
    rw [hgo] at h2
    rw [hgo, run_result_stay_ok enrich (by rw [h2]; rfl), run_result_go enrich hu]

/-- Enrichment function of the C3 witness: writes a generated comment,
leaving the identity fields alone. -/
def wit_enrich (r : Row) : Row := { r with feedback_comment := some "generated" }

/-- C3 witness: the idempotence theorem applied at a concrete one-row base
dataset with no prior output. -/
theorem pipeline_idempotent_witness :
    filter_unprocessed_records [(0, down_row)]
        (run_file_state wit_enrich [(0, down_row)] .absent) = []
    ∧ run_result wit_enrich [(0, down_row)]
        (run_file_state wit_enrich [(0, down_row)] .absent)
        = run_result wit_enrich [(0, down_row)] .absent
    ∧ run_file_state wit_enrich [(0, down_row)]
        (run_file_state wit_enrich [(0, down_row)] .absent)
        = run_file_state wit_enrich [(0, down_row)] .absent :=
  pipeline_idempotent wit_enrich [(0, down_row)] .absent (fun _ => rfl)

/-! Admission control: the semaphore bounds in-flight capability calls. -/

lemma inflight_count_replicate_pending (n : Nat) :
    inflight_count (List.replicate n TaskPhase.pending) = 0 := by
  induction n with
  | zero => rfl
  | succ n ih =>
      rw [List.replicate_succ, inflight_count, List.countP_cons]
      rw [inflight_count] at ih
      simp [ih]

lemma inflight_count_set_inflight :
    ∀ (s : List TaskPhase) (i : Nat), s.get? i = some TaskPhase.pending →
      inflight_count (s.set i TaskPhase.inflight) = inflight_count s + 1 := by
  intro s
  induction s with
  | nil => intro i h; cases h
  | cons a rest ih =>
      intro i h
      cases i with
      | zero =>
          rw [List.get?] at h
          injection h with h
          subst h
          simp [List.set, inflight_count, List.countP_cons]
      | succ i =>
          rw [List.get?] at h
          have hih := ih i h
          simp only [List.set, inflight_count, List.countP_cons] at hih ⊢
          omega

lemma inflight_count_set_finished :
    ∀ (s : List TaskPhase) (i : Nat), s.get? i = some TaskPhase.inflight →
      inflight_count (s.set i TaskPhase.finished) + 1 = inflight_count s := by
  intro s
  induction s with
  | nil => intro i h; cases h
  | cons a rest ih =>
      intro i h
      cases i with
      | zero =>
          rw [List.get?] at h
          injection h with h
          subst h
          simp [List.set, inflight_count, List.countP_cons]
      | succ i =>
          rw [List.get?] at h
          have hih := ih i h
          simp only [List.set, inflight_count, List.countP_cons] at hih ⊢
          omega

/-- C9: in every dispatcher state reachable from a batch of `n` pending
tasks under the semaphore-guarded step relation, at most `k` external
capability calls are outstanding — the admission gate `asyncio.Semaphore(k)`
bounds in-flight calls for every enrichment kind alike. -/
theorem concurrency_bound {k : Nat} {s : List TaskPhase}
    (h : DispatchReachable k s) : inflight_count s ≤ k := by
  induction h with
  | start n => rw [inflight_count_replicate_pending]; exact Nat.zero_le k
  | step hr hstep ih =>
      cases hstep with
      | acquire i hi hcap =>
          rw [inflight_count_set_inflight _ i hi]
          omega
      | release i hi =>
          have := inflight_count_set_finished _ i hi
          omega

/-- C9 witness: the bound applied to a concrete reachable state of a
three-task batch with limit 2 in which one call is outstanding. -/
theorem concurrency_bound_witness :
    inflight_count ((List.replicate 3 TaskPhase.pending).set 0 TaskPhase.inflight)
      ≤ 2 :=
  concurrency_bound
    (DispatchReachable.step (DispatchReachable.start 3)
      (DispatchStep.acquire (List.replicate 3 TaskPhase.pending) 0 rfl
        (by decide)))

end FeedbackPipeline
